import Mathlib

/-!
Verification of the reconciliation core of `highlights` (src/highlights/__main__.py):
a shallow embedding of the `Database` store operations, the schedule-sync loop and
the media-fill loop, together with proofs of the specified properties.

Modelling conventions:
* the SQLite table `highlights` is a list of `Highlight` records; `game_id` is the key;
* dates are integers (days); the source stores `YYYY-MM-DD` strings whose lexicographic
  order coincides with day order, so `date >= cutoff` becomes integer `≤`;
* the external content collaborator is a function `Nat → Except Unit (List MediaEntry)`;
  `Except.error` models a raised transient/remote error (the source has no handler for
  it, so in the embedding an error aborts the fill loop);
* Python's `playbacks[-1]` raises `IndexError` on an empty list; the media scan is
  therefore `Option`-valued, `none` modelling that crash.
-/

namespace Highlights

/-- One row of the `highlights` table (class `Highlight` in the source). -/
structure Highlight where
  game_id : Nat
  date : Int
  home : String
  away : String
  recap : Option String := none
  extended : Option String := none
  deriving Repr, DecidableEq

/-- The store is the list of rows of the `highlights` table. -/
abbrev Store := List Highlight

/-- `Database.get_by_id`: `SELECT * FROM highlights WHERE game_id = ?`, first row or none. -/
def get_by_id (store : Store) (game_id : Nat) : Option Highlight :=
  store.find? (fun r => r.game_id == game_id)

/-- `Database.update`: `UPDATE highlights SET date, home, away, recap, extended WHERE game_id = ?`.
Every row whose key matches has its five non-key columns overwritten; rows that do not
match are untouched. If no row matches, zero rows are affected. -/
def update (store : Store) (h : Highlight) : Store :=
  store.map (fun r =>
    if r.game_id == h.game_id then
      { game_id := r.game_id, date := h.date, home := h.home, away := h.away,
        recap := h.recap, extended := h.extended }
    else r)

/-- `Database.insert`: `INSERT INTO highlights VALUES (...)` appends a new row. -/
def insert (store : Store) (h : Highlight) : Store :=
  store ++ [h]

/-- `Database.select_missing`: rows with `date >= today - 3` and
(`recap IS NULL OR extended IS NULL`). `today` is the run's current date
(`pendulum.today()`); the cutoff `today - 3` is hard-coded in the source. -/
def select_missing (today : Int) (store : Store) : List Highlight :=
  store.filter (fun h => decide (today - 3 ≤ h.date) && (h.recap.isNone || h.extended.isNone))

/-- The `_TEAMS` mapping from provider team id to short team code. -/
def _TEAMS (id : Nat) : Option String :=
  match id with
  | 1 => some "NJD"
  | 2 => some "NYI"
  | 3 => some "NYR"
  | 4 => some "PHI"
  | 5 => some "PIT"
  | 6 => some "BOS"
  | 7 => some "BUF"
  | 8 => some "MTL"
  | 9 => some "OTT"
  | 10 => some "TOR"
  | 12 => some "CAR"
  | 13 => some "FLA"
  | 14 => some "TBL"
  | 15 => some "WSH"
  | 16 => some "CHI"
  | 17 => some "DET"
  | 18 => some "NSH"
  | 19 => some "STL"
  | 20 => some "CGY"
  | 21 => some "COL"
  | 22 => some "EDM"
  | 23 => some "VAN"
  | 24 => some "ANA"
  | 25 => some "DAL"
  | 26 => some "LAK"
  | 28 => some "SJS"
  | 29 => some "CBJ"
  | 30 => some "MIN"
  | 52 => some "WPG"
  | 53 => some "ARI"
  | 54 => some "VGK"
  | _ => none

/-- One game of a schedule response: `g.gamePk`, `g.teams.home.team.id`, `g.teams.away.team.id`. -/
structure Game where
  gamePk : Nat
  homeId : Nat
  awayId : Nat
  deriving Repr, DecidableEq

/-- One day of a schedule response: `gameDay.date` and `gameDay.games`. -/
structure GameDay where
  date : Int
  games : List Game
  deriving Repr, DecidableEq

/-- The body of the schedule-sync loop for one game: look both team ids up in
`_TEAMS`; a `KeyError` (no mapping) skips the game; otherwise insert a fresh
record unless one with the same `game_id` already exists. -/
def syncGame (store : Store) (date : Int) (g : Game) : Store :=
  match _TEAMS g.homeId, _TEAMS g.awayId with
  | some home, some away =>
    match get_by_id store g.gamePk with
    | some _ => store
    | none => insert store { game_id := g.gamePk, date := date, home := home, away := away }
  | _, _ => store

/-- The inner loop over `gameDay.games`. -/
def syncDay (store : Store) (d : GameDay) : Store :=
  d.games.foldl (fun st g => syncGame st d.date g) store

/-- The schedule-sync loop over `s.dates`. -/
def sync_schedule (sched : List GameDay) (store : Store) : Store :=
  sched.foldl syncDay store

/-- One playback of a media item (`playback.url`). -/
structure Playback where
  url : String
  deriving Repr, DecidableEq

/-- One item of a media entry (`media["items"][i]`): its list of playbacks. -/
structure MediaItem where
  playbacks : List Playback
  deriving Repr, DecidableEq

/-- One entry of `g.media.epg`: its `title` and its `items`. -/
structure MediaEntry where
  title : String
  items : List MediaItem
  deriving Repr, DecidableEq

/-- `media["items"][0].playbacks[-1].url` given the first item: Python's `[-1]`
is the last element and raises `IndexError` when `playbacks` is empty, hence
`Option`. -/
def lastUrl (it : MediaItem) : Option String :=
  it.playbacks.getLast?.map Playback.url

/-- `if media.title == "Recap" and len(media["items"]) > 0: h.recap = ...`.
`none` models the `IndexError` raised by `playbacks[-1]` on an empty list. -/
def applyRecap (h : Highlight) (m : MediaEntry) : Option Highlight :=
  if m.title = "Recap" then
    match m.items with
    | [] => some h
    | it :: _ =>
      match lastUrl it with
      | some u => some { h with recap := some u }
      | none => none
  else some h

/-- `if media.title == "Extended Highlights" and len(media["items"]) > 0: h.extended = ...`. -/
def applyExtended (h : Highlight) (m : MediaEntry) : Option Highlight :=
  if m.title = "Extended Highlights" then
    match m.items with
    | [] => some h
    | it :: _ =>
      match lastUrl it with
      | some u => some { h with extended := some u }
      | none => none
  else some h

/-- One iteration of the scan over `g.media.epg`: both `if` statements run in order. -/
def applyEntry (h : Highlight) (m : MediaEntry) : Option Highlight :=
  (applyRecap h m).bind (fun h₁ => applyExtended h₁ m)

/-- The scan `for media in g.media.epg` over one content response, mutating `h`. -/
def scanMedia : List MediaEntry → Highlight → Option Highlight
  | [], h => some h
  | m :: rest, h =>
    match applyEntry h m with
    | some h₁ => scanMedia rest h₁
    | none => none

/-- Result of the media-fill loop: the final store and whether the run was
aborted by an uncaught exception. -/
structure RunResult where
  store : Store
  aborted : Bool
  deriving Repr, DecidableEq

/-- The body of `for h in db.select_missing()`: fetch content for each selected
record in turn and persist the scanned record. The source wraps neither
`api.content` nor the scan in a `try`, so a raised error ends the loop with the
store as committed so far. -/
def fillLoop (content : Nat → Except Unit (List MediaEntry)) :
    Store → List Highlight → RunResult
  | store, [] => ⟨store, false⟩
  | store, h :: rest =>
    match content h.game_id with
    | .error _ => ⟨store, true⟩
    | .ok epg =>
      match scanMedia epg h with
      | none => ⟨store, true⟩
      | some h₁ => fillLoop content (update store h₁) rest

/-- The media-fill phase: the selection is materialised once, then iterated. -/
def fill_missing_media (content : Nat → Except Unit (List MediaEntry))
    (today : Int) (store : Store) : RunResult :=
  fillLoop content store (select_missing today store)

/-- Both team ids of `g` have a `_TEAMS` mapping. -/
def mappedGame (g : Game) : Prop :=
  (_TEAMS g.homeId).isSome = true ∧ (_TEAMS g.awayId).isSome = true

/- Concrete test fixtures used by the witness theorems. -/

/-- A media item with two playbacks, urls `u1` and `u2`. -/
def itemU12 : MediaItem := ⟨[⟨"u1"⟩, ⟨"u2"⟩]⟩

/-- A media item with two playbacks, urls `u3` and `u4`. -/
def itemU34 : MediaItem := ⟨[⟨"u3"⟩, ⟨"u4"⟩]⟩

/-- A media item with two playbacks, urls `v1` and `v2`. -/
def itemV12 : MediaItem := ⟨[⟨"v1"⟩, ⟨"v2"⟩]⟩

/-- A media item with one playback, url `a1`. -/
def itemA : MediaItem := ⟨[⟨"a1"⟩]⟩

/-- A media item with one playback, url `b1`. -/
def itemB : MediaItem := ⟨[⟨"b1"⟩]⟩

/-- A `Recap` entry with two items of two playbacks each. -/
def recapEntryW : MediaEntry := ⟨"Recap", [itemU12, itemU34]⟩

/-- An `Extended Highlights` entry with one item. -/
def extEntryW : MediaEntry := ⟨"Extended Highlights", [itemV12]⟩

/-- A first `Recap` entry, url `a1`. -/
def recapEntryA : MediaEntry := ⟨"Recap", [itemA]⟩

/-- A second `Recap` entry, url `b1`. -/
def recapEntryB : MediaEntry := ⟨"Recap", [itemB]⟩

/-- A freshly inserted record: both media fields absent. -/
def hW : Highlight := ⟨1, 0, "BOS", "MTL", none, none⟩

/-- `hW` after scanning `[recapEntryW, extEntryW]`. -/
def hW2 : Highlight := ⟨1, 0, "BOS", "MTL", some "u2", some "v2"⟩

/-- `hW` after scanning `[extEntryW]` only. -/
def hW8 : Highlight := ⟨1, 0, "BOS", "MTL", none, some "v2"⟩

/-- `hW` after scanning `[recapEntryA, recapEntryB]`. -/
def hW9 : Highlight := ⟨1, 0, "BOS", "MTL", some "b1", none⟩

/-- A store with two incomplete records, games `100` and `101`, both in window. -/
def storeC1 : Store :=
  [⟨100, 9, "BOS", "MTL", none, none⟩, ⟨101, 9, "TOR", "OTT", none, none⟩]

/-- A content collaborator that raises on game `100` and answers for every
other game with a single `Recap` entry. -/
def contentC1 : Nat → Except Unit (List MediaEntry) :=
  fun id => if id = 100 then Except.error () else Except.ok [recapEntryB]

end Highlights

namespace Highlights

/- ### Basic store lemmas -/

theorem get_by_id_eq_none (store : Store) (id : Nat) :
    get_by_id store id = none ↔ ∀ r ∈ store, r.game_id ≠ id := by
  simp [get_by_id, List.find?_eq_none]

theorem get_by_id_append (s₁ s₂ : Store) (id : Nat) :
    get_by_id (s₁ ++ s₂) id =
      (get_by_id s₁ id).or (get_by_id s₂ id) := by
  simp [get_by_id, List.find?_append]

theorem mem_select_missing (today : Int) (store : Store) (h : Highlight) :
    h ∈ select_missing today store ↔
      h ∈ store ∧ today - 3 ≤ h.date ∧ (h.recap = none ∨ h.extended = none) := by
  simp [select_missing, List.mem_filter, Option.isNone_iff_eq_none, and_assoc]

/- ### C3: window boundary of `select_missing` -/

/-- C3: `select_missing` includes every incomplete record (recap or extended
absent) dated exactly `today - 3`, and excludes every record dated `today - 4`
or older, even an incomplete one. -/
theorem select_missing_window_boundary (today : Int) (store : Store) (h : Highlight)
    (hmem : h ∈ store) :
    ((h.recap = none ∨ h.extended = none) → h.date = today - 3 →
        h ∈ select_missing today store) ∧
      (h.date ≤ today - 4 → h ∉ select_missing today store) := by
  constructor
  · intro hinc hdate
    exact (mem_select_missing today store h).2 ⟨hmem, le_of_eq hdate.symm, hinc⟩
  · intro hold hsel
    have := ((mem_select_missing today store h).1 hsel).2.1
    omega

/-- Witness for C3: with `today = 10`, an incomplete record dated `7 = 10 - 3`
is selected and an incomplete record dated `6 = 10 - 4` is not. -/
theorem select_missing_window_boundary_witness :
    (⟨1, 7, "BOS", "MTL", none, none⟩ : Highlight) ∈
        select_missing 10 [⟨1, 7, "BOS", "MTL", none, none⟩, ⟨2, 6, "NYR", "NYI", none, none⟩] ∧
      (⟨2, 6, "NYR", "NYI", none, none⟩ : Highlight) ∉
        select_missing 10 [⟨1, 7, "BOS", "MTL", none, none⟩, ⟨2, 6, "NYR", "NYI", none, none⟩] :=
  ⟨(select_missing_window_boundary 10 _ _ (by decide)).1 (Or.inl rfl) (by decide),
   (select_missing_window_boundary 10 _ _ (by decide)).2 (by decide)⟩

/- ### C4: complete records are never selected -/

/-- C4: a record with both `recap` and `extended` non-absent is never in the
result of `select_missing`, for any store and any reference date. -/
theorem select_missing_complete_excluded (today : Int) (store : Store) (h : Highlight)
    (hr : h.recap ≠ none) (he : h.extended ≠ none) :
    h ∉ select_missing today store := by
  intro hsel
  rcases ((mem_select_missing today store h).1 hsel).2.2 with hc | hc
  · exact hr hc
  · exact he hc

/-- Witness for C4: a complete record inside the window is still not selected. -/
theorem select_missing_complete_excluded_witness :
    (⟨3, 9, "TOR", "OTT", some "r", some "e"⟩ : Highlight) ∉
      select_missing 10 [⟨3, 9, "TOR", "OTT", some "r", some "e"⟩] :=
  select_missing_complete_excluded 10 _ _ (by decide) (by decide)

/- ### C10: no upper date bound in `select_missing` -/

/-- C10: `select_missing` imposes no upper bound on `date`: every incomplete
record in the store dated strictly after the reference date is selected. -/
theorem select_missing_no_upper_bound (today : Int) (store : Store) (h : Highlight)
    (hmem : h ∈ store) (hinc : h.recap = none ∨ h.extended = none)
    (hfuture : today < h.date) :
    h ∈ select_missing today store := by
  exact (mem_select_missing today store h).2 ⟨hmem, by omega, hinc⟩

/-- Witness for C10: an incomplete record dated `25`, far in the future of
reference date `10`, is selected. -/
theorem select_missing_no_upper_bound_witness :
    (⟨4, 25, "CHI", "DET", some "r", none⟩ : Highlight) ∈
      select_missing 10 [⟨4, 25, "CHI", "DET", some "r", none⟩] :=
  select_missing_no_upper_bound 10 _ _ (by decide) (Or.inr rfl) (by decide)

/- ### Media-scan lemmas -/

theorem applyExtended_recap_eq (h : Highlight) (m : MediaEntry) (h₁ : Highlight)
    (hap : applyExtended h m = some h₁) : h₁.recap = h.recap := by
  unfold applyExtended at hap
  split at hap
  · split at hap
    · simp_all
    · split at hap
      · simp only [Option.some.injEq] at hap
        subst hap
        rfl
      · simp_all
  · simp_all

theorem applyRecap_extended_eq (h : Highlight) (m : MediaEntry) (h₁ : Highlight)
    (hap : applyRecap h m = some h₁) : h₁.extended = h.extended := by
  unfold applyRecap at hap
  split at hap
  · split at hap
    · simp_all
    · split at hap
      · simp only [Option.some.injEq] at hap
        subst hap
        rfl
      · simp_all
  · simp_all

theorem applyRecap_miss (h : Highlight) (m : MediaEntry) (h₁ : Highlight)
    (hap : applyRecap h m = some h₁) (hmiss : ¬(m.title = "Recap" ∧ m.items ≠ [])) :
    h₁ = h := by
  unfold applyRecap at hap
  split at hap
  · split at hap
    · simp_all
    · split at hap <;> simp_all
  · simp_all

theorem applyExtended_miss (h : Highlight) (m : MediaEntry) (h₁ : Highlight)
    (hap : applyExtended h m = some h₁)
    (hmiss : ¬(m.title = "Extended Highlights" ∧ m.items ≠ [])) :
    h₁ = h := by
  unfold applyExtended at hap
  split at hap
  · split at hap
    · simp_all
    · split at hap <;> simp_all
  · simp_all

theorem applyEntry_recap_eq (h : Highlight) (m : MediaEntry) (h₁ : Highlight)
    (hap : applyEntry h m = some h₁) (hmiss : ¬(m.title = "Recap" ∧ m.items ≠ [])) :
    h₁.recap = h.recap := by
  unfold applyEntry at hap
  rcases hr : applyRecap h m with _ | h₂ <;> rw [hr] at hap
  · simp at hap
  · simp only [Option.some_bind] at hap
    rw [applyExtended_recap_eq h₂ m h₁ hap, applyRecap_miss h m h₂ hr hmiss]

theorem applyEntry_extended_eq (h : Highlight) (m : MediaEntry) (h₁ : Highlight)
    (hap : applyEntry h m = some h₁)
    (hmiss : ¬(m.title = "Extended Highlights" ∧ m.items ≠ [])) :
    h₁.extended = h.extended := by
  unfold applyEntry at hap
  rcases hr : applyRecap h m with _ | h₂ <;> rw [hr] at hap
  · simp at hap
  · simp only [Option.some_bind] at hap
    rw [applyExtended_miss h₂ m h₁ hap hmiss, applyRecap_extended_eq h m h₂ hr]

theorem applyEntry_recap_hit (h : Highlight) (m : MediaEntry) (h₁ : Highlight)
    (it : MediaItem) (tl : List MediaItem)
    (hap : applyEntry h m = some h₁) (htitle : m.title = "Recap")
    (hitems : m.items = it :: tl) :
    h₁.recap = lastUrl it := by
  rcases hu : lastUrl it with _ | u
  · simp [applyEntry, applyRecap, htitle, hitems, hu] at hap
  · simp [applyEntry, applyRecap, htitle, hitems, hu] at hap
    rw [applyExtended_recap_eq _ m h₁ hap]

theorem applyEntry_extended_hit (h : Highlight) (m : MediaEntry) (h₁ : Highlight)
    (it : MediaItem) (tl : List MediaItem)
    (hap : applyEntry h m = some h₁) (htitle : m.title = "Extended Highlights")
    (hitems : m.items = it :: tl) :
    h₁.extended = lastUrl it := by
  rcases hu : lastUrl it with _ | u
  · simp [applyEntry, applyRecap, applyExtended, htitle, hitems, hu] at hap
  · simp [applyEntry, applyRecap, applyExtended, htitle, hitems, hu] at hap
    subst hap
    rfl

theorem scanMedia_append (l₁ l₂ : List MediaEntry) (h : Highlight) :
    scanMedia (l₁ ++ l₂) h = (scanMedia l₁ h).bind (fun h₁ => scanMedia l₂ h₁) := by
  induction l₁ generalizing h with
  | nil => simp [scanMedia]
  | cons m t ih =>
    simp only [List.cons_append, scanMedia]
    rcases applyEntry h m with _ | h₁
    · simp
    · simp [ih]

theorem scanMedia_recap_invariant (l : List MediaEntry) (h h' : Highlight)
    (hscan : scanMedia l h = some h')
    (hmiss : ∀ e ∈ l, ¬(e.title = "Recap" ∧ e.items ≠ [])) :
    h'.recap = h.recap := by
  induction l generalizing h with
  | nil => simp [scanMedia] at hscan; rw [hscan]
  | cons m t ih =>
    simp only [scanMedia] at hscan
    rcases hap : applyEntry h m with _ | h₁ <;> rw [hap] at hscan
    · simp at hscan
    · rw [ih h₁ hscan (fun e he => hmiss e (List.mem_cons_of_mem m he)),
        applyEntry_recap_eq h m h₁ hap (hmiss m (List.mem_cons_self m t))]

theorem scanMedia_extended_invariant (l : List MediaEntry) (h h' : Highlight)
    (hscan : scanMedia l h = some h')
    (hmiss : ∀ e ∈ l, ¬(e.title = "Extended Highlights" ∧ e.items ≠ [])) :
    h'.extended = h.extended := by
  induction l generalizing h with
  | nil => simp [scanMedia] at hscan; rw [hscan]
  | cons m t ih =>
    simp only [scanMedia] at hscan
    rcases hap : applyEntry h m with _ | h₁ <;> rw [hap] at hscan
    · simp at hscan
    · rw [ih h₁ hscan (fun e he => hmiss e (List.mem_cons_of_mem m he)),
        applyEntry_extended_eq h m h₁ hap (hmiss m (List.mem_cons_self m t))]

theorem scanMedia_recap_of_decomp (l₁ l₂ : List MediaEntry) (e : MediaEntry)
    (it : MediaItem) (tl : List MediaItem) (h h' : Highlight)
    (hscan : scanMedia (l₁ ++ e :: l₂) h = some h')
    (htitle : e.title = "Recap") (hitems : e.items = it :: tl)
    (hl₂ : ∀ x ∈ l₂, ¬(x.title = "Recap" ∧ x.items ≠ [])) :
    h'.recap = lastUrl it := by
  rw [scanMedia_append] at hscan
  rcases h1 : scanMedia l₁ h with _ | h₁ <;> rw [h1] at hscan
  · simp at hscan
  · simp only [Option.some_bind, scanMedia] at hscan
    rcases hap : applyEntry h₁ e with _ | h₂ <;> rw [hap] at hscan
    · simp at hscan
    · rw [scanMedia_recap_invariant l₂ h₂ h' hscan hl₂,
        applyEntry_recap_hit h₁ e h₂ it tl hap htitle hitems]

theorem scanMedia_extended_of_decomp (l₁ l₂ : List MediaEntry) (e : MediaEntry)
    (it : MediaItem) (tl : List MediaItem) (h h' : Highlight)
    (hscan : scanMedia (l₁ ++ e :: l₂) h = some h')
    (htitle : e.title = "Extended Highlights") (hitems : e.items = it :: tl)
    (hl₂ : ∀ x ∈ l₂, ¬(x.title = "Extended Highlights" ∧ x.items ≠ [])) :
    h'.extended = lastUrl it := by
  rw [scanMedia_append] at hscan
  rcases h1 : scanMedia l₁ h with _ | h₁ <;> rw [h1] at hscan
  · simp at hscan
  · simp only [Option.some_bind, scanMedia] at hscan
    rcases hap : applyEntry h₁ e with _ | h₂ <;> rw [hap] at hscan
    · simp at hscan
    · rw [scanMedia_extended_invariant l₂ h₂ h' hscan hl₂,
        applyEntry_extended_hit h₁ e h₂ it tl hap htitle hitems]

/-- Any list with an element satisfying `p` splits at its last such element. -/
theorem last_match_decomposition {α : Type} {p : α → Prop} {l : List α}
    (hex : ∃ a ∈ l, p a) :
    ∃ l₁ a l₂, l = l₁ ++ a :: l₂ ∧ p a ∧ ∀ x ∈ l₂, ¬p x := by
  induction l with
  | nil => simp at hex
  | cons b t ih =>
    by_cases ht : ∃ a ∈ t, p a
    · obtain ⟨l₁, a, l₂, heq, hpa, hl₂⟩ := ih ht
      exact ⟨b :: l₁, a, l₂, by rw [heq, List.cons_append], hpa, hl₂⟩
    · have hb : p b := by
        obtain ⟨a, ha, hpa⟩ := hex
        rcases List.mem_cons.1 ha with rfl | hat
        · exact hpa
        · exact absurd ⟨a, hat, hpa⟩ ht
      exact ⟨[], b, t, rfl, hb, fun x hx hpx => ht ⟨x, hx, hpx⟩⟩

/- ### C7: `update` on a missing key is a silent no-op -/

/-- C7: if no record with `h.game_id` exists in the store, `update store h`
raises no error, affects zero rows and leaves the store unchanged. -/
theorem update_missing_key_noop (store : Store) (h : Highlight)
    (habs : get_by_id store h.game_id = none) :
    update store h = store := by
  have hall := (get_by_id_eq_none store h.game_id).1 habs
  unfold update
  conv_rhs => rw [← List.map_id store]
  apply List.map_congr_left
  intro r hr
  have hne : r.game_id ≠ h.game_id := hall r hr
  simp [hne]

/-- Witness for C7: updating a record keyed `9`, absent from a one-record
store, returns the store unchanged. -/
theorem update_missing_key_noop_witness :
    update [⟨5, 9, "STL", "CGY", none, none⟩] ⟨9, 9, "COL", "EDM", some "r", some "e"⟩ =
      [⟨5, 9, "STL", "CGY", none, none⟩] :=
  update_missing_key_noop _ _ (by decide)

/- ### C2: last-playback selection of the first item -/

/-- C2: when the scan of a content response succeeds and the response has a
single entry titled `Recap` with at least one item, the recap field of the
scanned record equals the last playback url of that entry's first item;
analogously for the `Extended Highlights` entry and the extended field. -/
theorem scanMedia_unique_label_extraction (epg : List MediaEntry) (h h' : Highlight)
    (hscan : scanMedia epg h = some h') :
    (∀ e ∈ epg, e.title = "Recap" →
      (∀ x ∈ epg, x.title = "Recap" ∧ x.items ≠ [] → x = e) →
      ∀ it tl, e.items = it :: tl → h'.recap = lastUrl it) ∧
    (∀ e ∈ epg, e.title = "Extended Highlights" →
      (∀ x ∈ epg, x.title = "Extended Highlights" ∧ x.items ≠ [] → x = e) →
      ∀ it tl, e.items = it :: tl → h'.extended = lastUrl it) := by
  constructor
  · intro e hmem htitle huniq it tl hitems
    have hex : ∃ x ∈ epg, x.title = "Recap" ∧ x.items ≠ [] :=
      ⟨e, hmem, htitle, by rw [hitems]; simp⟩
    obtain ⟨l₁, a, l₂, heq, ⟨hat, hane⟩, hl₂⟩ := last_match_decomposition hex
    have hae : a = e := huniq a (by rw [heq]; simp) ⟨hat, hane⟩
    subst hae
    rw [heq] at hscan
    exact scanMedia_recap_of_decomp l₁ l₂ a it tl h h' hscan hat hitems hl₂
  · intro e hmem htitle huniq it tl hitems
    have hex : ∃ x ∈ epg, x.title = "Extended Highlights" ∧ x.items ≠ [] :=
      ⟨e, hmem, htitle, by rw [hitems]; simp⟩
    obtain ⟨l₁, a, l₂, heq, ⟨hat, hane⟩, hl₂⟩ := last_match_decomposition hex
    have hae : a = e := huniq a (by rw [heq]; simp) ⟨hat, hane⟩
    subst hae
    rw [heq] at hscan
    exact scanMedia_extended_of_decomp l₁ l₂ a it tl h h' hscan hat hitems hl₂

/-- Witness for C2: scanning a response with one `Recap` entry (two items of
two playbacks each) and one `Extended Highlights` entry yields `u2`, the last
playback of the first recap item, and `v2` for extended. -/
theorem scanMedia_unique_label_extraction_witness :
    hW2.recap = lastUrl itemU12 ∧ hW2.extended = lastUrl itemV12 :=
  ⟨(scanMedia_unique_label_extraction [recapEntryW, extEntryW] hW hW2 (by decide)).1
      recapEntryW (by decide) (by decide) (by decide) itemU12 [itemU34] (by decide),
   (scanMedia_unique_label_extraction [recapEntryW, extEntryW] hW hW2 (by decide)).2
      extEntryW (by decide) (by decide) (by decide) itemV12 [] (by decide)⟩

/- ### C8: absent or empty label leaves the field unchanged -/

/-- C8: when the scan succeeds and the response has no `Recap` entry with at
least one item, the recap field is unchanged; analogously for
`Extended Highlights` and the extended field. In particular a response with
only an extended entry leaves `recap` in its prior absent state. -/
theorem scanMedia_absent_label_unchanged (epg : List MediaEntry) (h h' : Highlight)
    (hscan : scanMedia epg h = some h') :
    ((∀ e ∈ epg, ¬(e.title = "Recap" ∧ e.items ≠ [])) → h'.recap = h.recap) ∧
    ((∀ e ∈ epg, ¬(e.title = "Extended Highlights" ∧ e.items ≠ [])) → h'.extended = h.extended) :=
  ⟨fun hm => scanMedia_recap_invariant epg h h' hscan hm,
   fun hm => scanMedia_extended_invariant epg h h' hscan hm⟩

/-- Witness for C8: a response containing only an `Extended Highlights` entry
leaves `recap` absent (the scanned record `hW8` has `recap = hW.recap = none`). -/
theorem scanMedia_absent_label_unchanged_witness :
    hW8.recap = hW.recap :=
  (scanMedia_absent_label_unchanged [extEntryW] hW hW8 (by decide)).1 (by decide)

/- ### C9: later matching entries overwrite earlier ones -/

/-- C9: if a content response contains several entries with the same canonical
title, the field value persisted is the one contributed by the last such entry:
for any decomposition `l₁ ++ e :: l₂` where no entry of `l₂` matches the label,
the field equals `e`'s extraction. -/
theorem scanMedia_last_entry_wins (l₁ l₂ : List MediaEntry) (e : MediaEntry)
    (h h' : Highlight) (hscan : scanMedia (l₁ ++ e :: l₂) h = some h') :
    (e.title = "Recap" → (∀ x ∈ l₂, ¬(x.title = "Recap" ∧ x.items ≠ [])) →
      ∀ it tl, e.items = it :: tl → h'.recap = lastUrl it) ∧
    (e.title = "Extended Highlights" →
      (∀ x ∈ l₂, ¬(x.title = "Extended Highlights" ∧ x.items ≠ [])) →
      ∀ it tl, e.items = it :: tl → h'.extended = lastUrl it) :=
  ⟨fun ht hl it tl hi => scanMedia_recap_of_decomp l₁ l₂ e it tl h h' hscan ht hi hl,
   fun ht hl it tl hi => scanMedia_extended_of_decomp l₁ l₂ e it tl h h' hscan ht hi hl⟩

/-- Witness for C9: scanning two `Recap` entries (`a1` then `b1`) persists the
second entry's url `b1`. -/
theorem scanMedia_last_entry_wins_witness :
    hW9.recap = lastUrl itemB :=
  (scanMedia_last_entry_wins [recapEntryA] [] recapEntryB hW hW9 (by decide)).1
    (by decide) (by decide) itemB [] (by decide)

/- ### C1: a content-fetch error during media fill -/

theorem fillLoop_error_aborts (content : Nat → Except Unit (List MediaEntry))
    (store : Store) (l : List Highlight)
    (hex : ∃ h ∈ l, ∃ e, content h.game_id = Except.error e) :
    (fillLoop content store l).aborted = true := by
  induction l generalizing store with
  | nil => simp at hex
  | cons h₀ t ih =>
    obtain ⟨h, hmem, e, herr⟩ := hex
    cases hc : content h₀.game_id with
    | error e₀ => simp [fillLoop, hc]
    | ok epg =>
      cases hs : scanMedia epg h₀ with
      | none => simp [fillLoop, hc, hs]
      | some h₁ =>
        have hmem' : h ∈ t := by
          rcases List.mem_cons.1 hmem with rfl | ht
          · rw [hc] at herr; simp at herr
          · exact ht
        simp only [fillLoop, hc, hs]
        exact ih (update store h₁) ⟨h, hmem', e, herr⟩

/-- C1 counterexample: the claimed skip-and-continue behaviour is false. With
two selected missing records where the content fetch for the first (game `100`)
raises and the fetch for the second (game `101`) would succeed, the run aborts
(`aborted = true`) and the store is left exactly as it was: game `101` is not
processed, contradicting "processing continues with the remaining selected
records" and "the error never aborts the overall run". -/
theorem fill_missing_media_error_skip_counterexample :
    (fill_missing_media contentC1 10 storeC1).aborted = true ∧
      (fill_missing_media contentC1 10 storeC1).store = storeC1 := by
  constructor <;> rfl

/-- C1 (amended): if the content collaborator's fetch raises a transient/remote
error for any record selected by `select_missing`, the media-fill run aborts
(the error propagates; the failing record stays missing, and any records after
the abort point are not processed). The source wraps `api.content` in no
`try`/`except`, so the error is never recovered per-item. -/
theorem fill_missing_media_error_aborts (content : Nat → Except Unit (List MediaEntry))
    (today : Int) (store : Store)
    (hex : ∃ h ∈ select_missing today store, ∃ e, content h.game_id = Except.error e) :
    (fill_missing_media content today store).aborted = true :=
  fillLoop_error_aborts content store (select_missing today store) hex

/-- Witness for C1 (amended): with the concrete store and collaborator of the
counterexample, the run aborts. -/
theorem fill_missing_media_error_aborts_witness :
    (fill_missing_media contentC1 10 storeC1).aborted = true :=
  fill_missing_media_error_aborts contentC1 10 storeC1
    ⟨⟨100, 9, "BOS", "MTL", none, none⟩, by decide, (), rfl⟩

/- ### Schedule-sync lemmas -/

theorem syncGame_cases (s : Store) (d : Int) (g : Game) :
    syncGame s d g = s ∨
      (mappedGame g ∧ get_by_id s g.gamePk = none ∧ ∃ hh aa,
        syncGame s d g = s ++ [⟨g.gamePk, d, hh, aa, none, none⟩]) := by
  unfold syncGame
  rcases hht : _TEAMS g.homeId with _ | hh
  · exact Or.inl rfl
  · rcases hat : _TEAMS g.awayId with _ | aa
    · exact Or.inl rfl
    · rcases hid : get_by_id s g.gamePk with _ | r
      · exact Or.inr ⟨⟨by rw [hht]; rfl, by rw [hat]; rfl⟩, rfl, hh, aa, rfl⟩
      · exact Or.inl rfl

theorem syncGame_preserves_present (s : Store) (d : Int) (g : Game) (id : Nat)
    (hs : (get_by_id s id).isSome = true) :
    (get_by_id (syncGame s d g) id).isSome = true := by
  rcases syncGame_cases s d g with he | ⟨-, -, hh, aa, he⟩ <;> rw [he]
  · exact hs
  · rcases hgb : get_by_id s id with _ | r
    · rw [hgb] at hs; simp at hs
    · rw [get_by_id_append, hgb]; rfl

theorem syncGame_covers (s : Store) (d : Int) (g : Game) (hm : mappedGame g) :
    (get_by_id (syncGame s d g) g.gamePk).isSome = true := by
  obtain ⟨hh', ha'⟩ := hm
  unfold syncGame
  rcases hht : _TEAMS g.homeId with _ | hh
  · rw [hht] at hh'; simp at hh'
  · rcases hat : _TEAMS g.awayId with _ | aa
    · rw [hat] at ha'; simp at ha'
    · rcases hid : get_by_id s g.gamePk with _ | r
      · simp [insert, get_by_id_append, hid, get_by_id]
      · simp [hid]

theorem foldl_syncGame_preserves (l : List Game) (d : Int) :
    ∀ (s : Store) (id : Nat), (get_by_id s id).isSome = true →
      (get_by_id (l.foldl (fun st g => syncGame st d g) s) id).isSome = true := by
  induction l with
  | nil => intro s id hs; exact hs
  | cons g t ih =>
    intro s id hs
    simp only [List.foldl_cons]
    exact ih _ id (syncGame_preserves_present s d g id hs)

theorem foldl_syncGame_covers (l : List Game) (d : Int) :
    ∀ (s : Store) (g : Game), g ∈ l → mappedGame g →
      (get_by_id (l.foldl (fun st g => syncGame st d g) s) g.gamePk).isSome = true := by
  induction l with
  | nil => intro s g hg; simp at hg
  | cons g₀ t ih =>
    intro s g hg hm
    simp only [List.foldl_cons]
    rcases List.mem_cons.1 hg with rfl | hgt
    · exact foldl_syncGame_preserves t d _ g.gamePk (syncGame_covers s d g hm)
    · exact ih _ g hgt hm

theorem foldl_syncGame_noop (l : List Game) (d : Int) :
    ∀ s : Store, (∀ g ∈ l, mappedGame g → (get_by_id s g.gamePk).isSome = true) →
      l.foldl (fun st g => syncGame st d g) s = s := by
  induction l with
  | nil => intro s _; rfl
  | cons g₀ t ih =>
    intro s hcov
    have h0 : syncGame s d g₀ = s := by
      rcases syncGame_cases s d g₀ with he | ⟨hmap, habs, -, -, -⟩
      · exact he
      · have := hcov g₀ (List.mem_cons_self g₀ t) hmap
        rw [habs] at this
        simp at this
    rw [List.foldl_cons, h0]
    exact ih s (fun g hg => hcov g (List.mem_cons_of_mem g₀ hg))

theorem syncDay_preserves (d : GameDay) (s : Store) (id : Nat)
    (hs : (get_by_id s id).isSome = true) :
    (get_by_id (syncDay s d) id).isSome = true :=
  foldl_syncGame_preserves d.games d.date s id hs

theorem sync_schedule_preserves (sched : List GameDay) :
    ∀ (s : Store) (id : Nat), (get_by_id s id).isSome = true →
      (get_by_id (sync_schedule sched s) id).isSome = true := by
  induction sched with
  | nil => intro s id hs; exact hs
  | cons d t ih =>
    intro s id hs
    exact ih _ id (syncDay_preserves d s id hs)

theorem sync_schedule_covers (sched : List GameDay) :
    ∀ (s : Store) (d : GameDay) (g : Game), d ∈ sched → g ∈ d.games → mappedGame g →
      (get_by_id (sync_schedule sched s) g.gamePk).isSome = true := by
  induction sched with
  | nil => intro s d g hd _ _; simp at hd
  | cons d₀ t ih =>
    intro s d g hd hg hm
    rcases List.mem_cons.1 hd with rfl | hdt
    · exact sync_schedule_preserves t (syncDay s d) g.gamePk
        (foldl_syncGame_covers d.games d.date s g hg hm)
    · exact ih (syncDay s d₀) d g hdt hg hm

theorem syncDay_noop (d : GameDay) (s : Store)
    (hcov : ∀ g ∈ d.games, mappedGame g → (get_by_id s g.gamePk).isSome = true) :
    syncDay s d = s :=
  foldl_syncGame_noop d.games d.date s hcov

theorem sync_schedule_noop (sched : List GameDay) :
    ∀ s : Store,
      (∀ d ∈ sched, ∀ g ∈ d.games, mappedGame g → (get_by_id s g.gamePk).isSome = true) →
      sync_schedule sched s = s := by
  induction sched with
  | nil => intro s _; rfl
  | cons d₀ t ih =>
    intro s hcov
    have h0 : syncDay s d₀ = s := syncDay_noop d₀ s (hcov d₀ (List.mem_cons_self d₀ t))
    show sync_schedule t (syncDay s d₀) = s
    rw [h0]
    exact ih s (fun d hd => hcov d (List.mem_cons_of_mem d₀ hd))

/- ### C5: idempotence of schedule sync -/

/-- C5: running `sync_schedule` a second time on the same schedule response is
the identity on the store: no record is inserted again and every record —
including `game_id`, `date`, `home`, `away` of existing records — is left
exactly as the first run left it. -/
theorem sync_schedule_idempotent (sched : List GameDay) (store : Store) :
    sync_schedule sched (sync_schedule sched store) = sync_schedule sched store :=
  sync_schedule_noop sched (sync_schedule sched store)
    (fun d hd g hg hm => sync_schedule_covers sched store d g hd hg hm)

/- ### C6: unmapped team skip -/

/-- C6: a schedule game one of whose team ids has no `_TEAMS` mapping causes
zero store mutations and no error: `syncGame` is the identity on the store,
and removing the game from its day leaves the whole day's sync — and the whole
schedule's sync — unchanged (the remaining games are still processed). -/
theorem syncGame_unmapped_skip (store : Store) (date : Int) (g : Game)
    (hunm : _TEAMS g.homeId = none ∨ _TEAMS g.awayId = none) :
    syncGame store date g = store ∧
      (∀ pre post : List Game,
        syncDay store ⟨date, pre ++ g :: post⟩ = syncDay store ⟨date, pre ++ post⟩) ∧
      (∀ (days₁ days₂ : List GameDay) (pre post : List Game),
        sync_schedule (days₁ ++ ⟨date, pre ++ g :: post⟩ :: days₂) store =
          sync_schedule (days₁ ++ ⟨date, pre ++ post⟩ :: days₂) store) := by
  have h1 : ∀ s : Store, syncGame s date g = s := by
    intro s
    rcases hunm with hm | hm
    · unfold syncGame
      rw [hm]
    · unfold syncGame
      rw [hm]
      rcases _TEAMS g.homeId with _ | hh <;> rfl
  have h2 : ∀ (s : Store) (pre post : List Game),
      syncDay s ⟨date, pre ++ g :: post⟩ = syncDay s ⟨date, pre ++ post⟩ := by
    intro s pre post
    simp only [syncDay, List.foldl_append, List.foldl_cons, h1]
  refine ⟨h1 store, h2 store, fun days₁ days₂ pre post => ?_⟩
  simp only [sync_schedule, List.foldl_append, List.foldl_cons, h2]

/-- Witness for C6: team id `11` has no mapping, so the game `⟨300, 11, 1⟩` is
skipped while the mapped game `⟨301, 1, 2⟩` before it is still processed. -/
theorem syncGame_unmapped_skip_witness :
    syncGame [] 9 ⟨300, 11, 1⟩ = [] ∧
      (∀ pre post : List Game,
        syncDay [] ⟨9, pre ++ ⟨300, 11, 1⟩ :: post⟩ = syncDay [] ⟨9, pre ++ post⟩) ∧
      (∀ (days₁ days₂ : List GameDay) (pre post : List Game),
        sync_schedule (days₁ ++ ⟨9, pre ++ ⟨300, 11, 1⟩ :: post⟩ :: days₂) [] =
          sync_schedule (days₁ ++ ⟨9, pre ++ post⟩ :: days₂) []) :=
  syncGame_unmapped_skip [] 9 ⟨300, 11, 1⟩ (Or.inl rfl)

end Highlights
